import Mathlib

/-!
# Verification of the Barnet crime-dashboard data pipeline

A shallow embedding of the core pipeline of `src/BarnetCrimeDashboard.py`:

* the coordinate parser `extract_lat_lon` (lines 57-64), built on
  `ast.literal_eval`, `dict.get` and `float`;
* the spatial join `lsoa_wards_gdf = gpd.sjoin(lsoa_gdf, wards_gdf,
  how="left", predicate="intersects")` (lines 33-47) together with
  `GeoDataFrame.from_features` and `set_crs`;
* the live fetcher `fetch_crime_data` (lines 235-253);
* the choropleth colorizer of `update_variable_map` (lines 419-428):
  `np.percentile` thresholds at the deciles and the `get_color` scan;
* the rank/total computation of `display_lsoa_info` (lines 503-511).

Modelling conventions:

* Python floats are modelled as rationals (`ℚ`); the finite decimal
  literals appearing in the data and in the spec are represented exactly.
  Non-finite float literals (`nan`, `inf`) have no rational counterpart and
  are outside the model.
* Python exceptions are explicit: a fallible step returns `Except PyExc _`.
* Polygon geometries are abstracted to finite sets of atomic cells
  (`List Nat`); two geometries intersect iff they share a cell.  This is a
  decidable stand-in for shapely's topological `intersects` predicate; the
  join code never inspects geometries in any other way.
-/

/-- The Python exception classes that the embedded code can raise. -/
inductive PyExc where
  | valError   -- ValueError
  | synError   -- SyntaxError
  | typeError  -- TypeError
  | attrError  -- AttributeError
  | keyError   -- KeyError
deriving DecidableEq

/-- Python literal values, restricted to the fragment produced by
`ast.literal_eval` on the serialized location payloads: `None`, booleans,
integers, finite floats, strings, and dicts with string keys. -/
inductive PyVal where
  | none
  | bool (b : Bool)
  | int (n : Int)
  | float (q : ℚ)
  | str (s : String)
  | dict (entries : List (String × PyVal))

/-- Drop leading ASCII whitespace, as Python's tokenizer and `float` do. -/
def skipWs : List Char → List Char
  | c :: cs => if c = ' ' ∨ c = '\t' ∨ c = '\n' ∨ c = '\r' then skipWs cs else c :: cs
  | [] => []

/-- Split a leading run of decimal digits from the rest. -/
def readDigits : List Char → List Char × List Char
  | c :: cs =>
      if c.isDigit then
        let p := readDigits cs
        (c :: p.1, p.2)
      else ([], c :: cs)
  | [] => ([], [])

/-- Numeric value of a digit string (most significant first). -/
def natOfDigits (ds : List Char) : Nat :=
  ds.foldl (fun a c => a * 10 + (c.toNat - 48)) 0

/-- Read the body of a quoted string up to the closing quote `q`
(escape sequences are outside the fragment). -/
def readStrChars (q : Char) : List Char → Option (List Char × List Char)
  | c :: cs =>
      if c = q then some ([], cs)
      else
        match readStrChars q cs with
        | some p => some (c :: p.1, p.2)
        | Option.none => Option.none
  | [] => Option.none

/-- Rational value of `±ds.fs`, the mantissa of a decimal literal. -/
def ratOfParts (neg : Bool) (ds fs : List Char) : ℚ :=
  let m : ℚ := (natOfDigits (ds ++ fs) : ℚ) / (10 : ℚ) ^ fs.length
  if neg then -m else m

/-- Parse a signed decimal number token (`int` or `float` literal). -/
def parseNum (cs : List Char) : Option (PyVal × List Char) :=
  let sp : Bool × List Char :=
    match cs with
    | '-' :: r => (true, r)
    | '+' :: r => (false, r)
    | _ => (false, cs)
  let dp := readDigits sp.2
  if dp.1.isEmpty then Option.none
  else
    match dp.2 with
    | '.' :: r2 =>
        let fp := readDigits r2
        some (PyVal.float (ratOfParts sp.1 dp.1 fp.1), fp.2)
    | r => some (PyVal.int (if sp.1 then -(natOfDigits dp.1 : Int) else (natOfDigits dp.1 : Int)), r)

mutual

/-- Fuel-indexed parser for one Python literal, the core of the
`ast.literal_eval` model.  Returns the value and the unconsumed input. -/
def parseVal : Nat → List Char → Option (PyVal × List Char)
  | 0, _ => Option.none
  | fuel + 1, cs0 =>
    match skipWs cs0 with
    | [] => Option.none
    | c :: rest =>
      if c = '\x27' ∨ c = '\x22' then
        match readStrChars c rest with
        | some p => some (PyVal.str (String.mk p.1), p.2)
        | Option.none => Option.none
      else if c = '\x7b' then
        match parseEntries fuel rest with
        | some p => some (PyVal.dict p.1, p.2)
        | Option.none => Option.none
      else if ['N', 'o', 'n', 'e'].isPrefixOf (c :: rest) then
        some (PyVal.none, (c :: rest).drop 4)
      else if ['T', 'r', 'u', 'e'].isPrefixOf (c :: rest) then
        some (PyVal.bool true, (c :: rest).drop 4)
      else if ['F', 'a', 'l', 's', 'e'].isPrefixOf (c :: rest) then
        some (PyVal.bool false, (c :: rest).drop 5)
      else
        parseNum (c :: rest)

/-- Fuel-indexed parser for dict entries after the opening brace, up to and
including the closing brace (string keys only in this fragment). -/
def parseEntries : Nat → List Char → Option (List (String × PyVal) × List Char)
  | 0, _ => Option.none
  | fuel + 1, cs0 =>
    match skipWs cs0 with
    | c :: rest =>
      if c = '\x7d' then some ([], rest)
      else if c = '\x27' ∨ c = '\x22' then
        match readStrChars c rest with
        | some kp =>
          (match skipWs kp.2 with
           | ':' :: r1 =>
             match parseVal fuel r1 with
             | some vp =>
               (match skipWs vp.2 with
                | ',' :: r2 =>
                    match parseEntries fuel r2 with
                    | some ep => some ((String.mk kp.1, vp.1) :: ep.1, ep.2)
                    | Option.none => Option.none
                | '\x7d' :: r2 => some ([(String.mk kp.1, vp.1)], r2)
                | _ => Option.none)
             | Option.none => Option.none
           | _ => Option.none)
        | Option.none => Option.none
      else Option.none
    | [] => Option.none

end

/-- `ast.literal_eval`: parse a complete Python literal; anything else
raises.  (CPython distinguishes `SyntaxError` from `ValueError` for
well-formed non-literal expressions; both are caught identically by
`extract_lat_lon`, so the model raises `synError` uniformly.) -/
def literalEval (s : String) : Except PyExc PyVal :=
  match parseVal (s.length + 1) s.data with
  | some p => if (skipWs p.2).isEmpty then Except.ok p.1 else Except.error PyExc.synError
  | Option.none => Except.error PyExc.synError

/-- `str.replace('null', 'None')`: leftmost non-overlapping replacement of
every occurrence of `null` by `None`, on the character list. -/
def replaceNull : List Char → List Char
  | 'n' :: 'u' :: 'l' :: 'l' :: cs => 'N' :: 'o' :: 'n' :: 'e' :: replaceNull cs
  | c :: cs => c :: replaceNull cs
  | [] => []

/-- `float(str)` on the string payload: strip whitespace, optional sign,
decimal mantissa (`d+`, `d+.d*` or `.d+`), optional exponent.  Returns
`Option.none` where Python raises `ValueError`.  (`inf`/`nan` literals are
non-finite and outside the rational model.) -/
def pyFloatOfString (s : String) : Option ℚ :=
  let cs := skipWs s.data
  let sp : Bool × List Char :=
    match cs with
    | '-' :: r => (true, r)
    | '+' :: r => (false, r)
    | _ => (false, cs)
  let dp := readDigits sp.2
  let mant : Option (ℚ × List Char) :=
    match dp.2 with
    | '.' :: r2 =>
        let fp := readDigits r2
        if dp.1.isEmpty ∧ fp.1.isEmpty then Option.none
        else some (ratOfParts sp.1 dp.1 fp.1, fp.2)
    | r => if dp.1.isEmpty then Option.none else some (ratOfParts sp.1 dp.1 [], r)
  match mant with
  | some mr =>
    (match mr.2 with
     | 'e' :: r1 | 'E' :: r1 =>
        let esp : Bool × List Char :=
          match r1 with
          | '-' :: r2 => (true, r2)
          | '+' :: r2 => (false, r2)
          | _ => (false, r1)
        let ep := readDigits esp.2
        if ep.1.isEmpty then Option.none
        else if (skipWs ep.2).isEmpty then
          some (if esp.1 then mr.1 / (10 : ℚ) ^ natOfDigits ep.1
                else mr.1 * (10 : ℚ) ^ natOfDigits ep.1)
        else Option.none
     | r => if (skipWs r).isEmpty then some mr.1 else Option.none)
  | Option.none => Option.none

/-- Python's `float(x)` builtin on a literal value: numeric strings convert,
numbers and booleans convert, `None` and containers raise `TypeError`. -/
def pyFloat : PyVal → Except PyExc ℚ
  | PyVal.str s =>
      match pyFloatOfString s with
      | some q => Except.ok q
      | Option.none => Except.error PyExc.valError
  | PyVal.int n => Except.ok (n : ℚ)
  | PyVal.float q => Except.ok q
  | PyVal.bool b => Except.ok (if b then 1 else 0)
  | PyVal.none => Except.error PyExc.typeError
  | PyVal.dict _ => Except.error PyExc.typeError

/-- `entries.get(key, None)` on a dict's entry list: the first entry with
the key, defaulting to `None`. -/
def pyGetD (entries : List (String × PyVal)) (key : String) : PyVal :=
  match entries.find? (fun e => e.1 == key) with
  | some e => e.2
  | Option.none => PyVal.none

/-- `location_dict.get(key, None)`: association lookup with default `None`
on a dict; any non-dict value has no `.get` attribute and raises
`AttributeError`. -/
def pyGet (v : PyVal) (key : String) : Except PyExc PyVal :=
  match v with
  | PyVal.dict entries => Except.ok (pyGetD entries key)
  | _ => Except.error PyExc.attrError

/-- Lines 57-64: `extract_lat_lon(location_str)`.  The `try` block parses
`str(location_str).replace('null', 'None')` with `ast.literal_eval`, then
converts `location_dict.get('latitude', None)` and `.get('longitude', None)`
with `float`; `except (ValueError, SyntaxError)` yields `(None, None)`.
Any other exception (notably `TypeError` from `float(None)`) escapes as
`Except.error`. -/
def extract_lat_lon (s : String) : Except PyExc (Option ℚ × Option ℚ) :=
  let body : Except PyExc (Option ℚ × Option ℚ) := do
    let d ← literalEval (String.mk (replaceNull s.data))
    let la ← pyFloat (← pyGet d "latitude")
    let lo ← pyFloat (← pyGet d "longitude")
    Except.ok (some la, some lo)
  match body with
  | Except.ok v => Except.ok v
  | Except.error e =>
      if e = PyExc.valError ∨ e = PyExc.synError then Except.ok (Option.none, Option.none)
      else Except.error e

/-! ## The choropleth colorizer (`update_variable_map`, lines 419-428) -/

/-- Linear interpolation of a sorted array `a` at fractional rank `r`:
`a[k] + (r - k) * (a[k+1] - a[k])` with `k = ⌊r⌋`, and `a[k]` when `k` is
the last index.  This is numpy's default (linear) percentile interpolation
between the two bracketing order statistics. -/
def interpAt (a : List ℚ) (r : ℚ) : ℚ :=
  let k : ℕ := ⌊r⌋₊
  if k + 1 < a.length then
    a.getD k 0 + (r - (k : ℚ)) * (a.getD (k + 1) 0 - a.getD k 0)
  else
    a.getD k 0

/-- `np.percentile(values, p)` with the default linear interpolation:
sort the data, take rank `p / 100 * (n - 1)`, interpolate. -/
def np_percentile (values : List ℚ) (p : ℚ) : ℚ :=
  let a := List.insertionSort (· ≤ ·) values
  interpAt a (p * ((a.length : ℚ) - 1) / 100)

/-- Line 420: `percentiles = [10, 20, 30, 40, 50, 60, 70, 80, 90, 100]`. -/
def percentiles : List ℚ := [10, 20, 30, 40, 50, 60, 70, 80, 90, 100]

/-- Line 421: the ten fixed tier colors. -/
def colors : List String :=
  ["#800026", "#BD0026", "#E31A1C", "#FC4E2A", "#FD8D3C",
   "#FEB24C", "#FED976", "#FFEDA0", "#FFFFCC", "#FFFFFF"]

/-- Line 422: `thresholds = [np.percentile(values, p) for p in percentiles]`. -/
def thresholds (values : List ℚ) : List ℚ :=
  percentiles.map (np_percentile values)

/-- The loop body of `get_color` (lines 424-428): scan the remaining
thresholds, `i` being the index of the first one; on `value <= threshold`
return `colors[i]`; if the loop falls through, return `colors[-1]`. -/
def color_loop (value : ℚ) : List ℚ → Nat → String
  | [], _ => colors.getLastD ""
  | t :: ts, i => if value ≤ t then colors.getD i "" else color_loop value ts (i + 1)

/-- Lines 424-428: `get_color(value)` over the thresholds computed from
`values` and the fixed `colors`. -/
def get_color (values : List ℚ) (value : ℚ) : String :=
  color_loop value (thresholds values) 0

/-- The spec's `buildColorFn` boundary: `np.percentile` raises on an empty
data set (the spec's `InputError`), otherwise the color function is total.
The emptiness test models exactly the condition under which
`np.percentile`, and hence line 422, raises. -/
def buildColorFn (values : List ℚ) : Except String (ℚ → String) :=
  if values.isEmpty then Except.error "InputError"
  else Except.ok (get_color values)

/-- `[1, 2, ..., 100]`, the data set of the spec's percentile test. -/
def values100 : List ℚ := (List.range 100).map (fun i => (i : ℚ) + 1)

/-- Index of the first list element satisfying `p` (the index the `for`
loop of `get_color` returns at). -/
def firstIdx (p : ℚ → Bool) : List ℚ → Option Nat
  | [] => Option.none
  | t :: ts => if p t then some 0 else (firstIdx p ts).map (· + 1)

/-- The tier index `get_color` colors a value with: the first tier whose
threshold is at least the value, and the last tier (index 9) when the scan
falls through. -/
def tierIdx (values : List ℚ) (v : ℚ) : Nat :=
  match firstIdx (fun t => decide (v ≤ t)) (thresholds values) with
  | some i => i
  | Option.none => 9

/-! ## The spatial join (lines 33-47) -/

/-- A geometry-carrying feature row of a GeoDataFrame.  The geometry is a
finite set of atomic cells; `attrs` is the row's `properties` payload. -/
structure Feature (α : Type) where
  geometry : List Nat
  attrs : α

/-- The `predicate="intersects"` test: topological overlap, including mere
touching — modelled as sharing at least one cell. -/
def intersects {α β : Type} (l : Feature α) (w : Feature β) : Bool :=
  l.geometry.any (fun c => w.geometry.contains c)

/-- The output rows one left feature contributes to the left spatial join,
tagged with its frame index `idx`: one row per intersecting right feature,
or a single row with null (`Option.none`) right fields when none
intersects. -/
def matchRows {α β : Type} (ws : List (Feature β)) (l : Feature α) (idx : Nat) :
    List (Nat × α × Option β) :=
  let ms := ws.filter (fun w => intersects l w)
  if ms.isEmpty then [(idx, l.attrs, Option.none)]
  else ms.map (fun w => (idx, l.attrs, some w.attrs))

/-- The row generator of `gpd.sjoin(lsoa_gdf, wards_gdf, how="left",
predicate="intersects")`, walking the left frame in order and tagging each
output row with the left row's index: a left row with matching right rows
yields one output row per match; a left row with no match is kept once with
null right fields. -/
def sjoin_aux {α β : Type} (ws : List (Feature β)) :
    List (Feature α) → Nat → List (Nat × α × Option β)
  | [], _ => []
  | l :: ls, i => matchRows ws l i ++ sjoin_aux ws ls (i + 1)

/-- Line 42: the left spatial join, left indices starting at 0. -/
def sjoin_left {α β : Type} (ls : List (Feature α)) (ws : List (Feature β)) :
    List (Nat × α × Option β) :=
  sjoin_aux ws ls 0

/-- The joined rows carrying a given left index. -/
def rowsFor {α β : Type} (ls : List (Feature α)) (ws : List (Feature β)) (i : Nat) :
    List (Nat × α × Option β) :=
  (sjoin_left ls ws).filter (fun r => r.1 == i)

/-- A raw GeoJSON feature as fed to `GeoDataFrame.from_features`: the
`geometry` field may be absent (malformed input). -/
structure RawFeature (α : Type) where
  geometry : Option (List Nat)
  props : α

/-- `gpd.GeoDataFrame.from_features`: build the frame row by row; a feature
with no `geometry` field raises (`KeyError`). -/
def from_features {α : Type} : List (RawFeature α) → Except PyExc (List (Feature α))
  | [] => Except.ok []
  | f :: fs =>
      match f.geometry with
      | some g => (from_features fs).map (fun rest => Feature.mk g f.props :: rest)
      | Option.none => Except.error PyExc.keyError

/-- `.set_crs("EPSG:4326")` on the frame: assigning a CRS to a frame with
no geometry column — which is what `from_features` produces from an empty
feature collection — raises (`ValueError`); otherwise the frame passes
through unchanged. -/
def set_crs {α : Type} (gdf : List (Feature α)) : Except PyExc (List (Feature α)) :=
  if gdf.isEmpty then Except.error PyExc.valError else Except.ok gdf

/-- Lines 33-45 as one pipeline stage: build both frames, set both CRSs,
join.  The surrounding `except` block (lines 46-47) only logs, so a raised
exception means no joined table (`df`) is ever produced: the stage is
all-or-nothing, which the `Except` return type captures. -/
def lsoa_wards_join {α β : Type} (lf : List (RawFeature α)) (wf : List (RawFeature β)) :
    Except PyExc (List (Nat × α × Option β)) := do
  let lsoa_gdf ← from_features lf
  let wards_gdf ← from_features wf
  let lsoa_gdf2 ← set_crs lsoa_gdf
  let wards_gdf2 ← set_crs wards_gdf
  Except.ok (sjoin_left lsoa_gdf2 wards_gdf2)

/-! ## The live fetcher `fetch_crime_data` (lines 235-253) -/

/-- One incident object of the police-API response body: a `category` and
the serialized `location` payload (the image of `str()` on the raw value,
which is what `extract_lat_lon` receives). -/
structure Incident where
  category : String
  location : String

/-- The outcome of `requests.get` as `fetch_crime_data` observes it: a
status code, the parse of `response.json()`, and `response.text` for the
error log.  A network failure is an exception in place of a response. -/
structure HttpResponse where
  status : Nat
  jsonBody : Except PyExc (List Incident)
  text : String

/-- `df['location'].apply(extract_lat_lon)` row by row: the first uncaught
per-row exception aborts the whole `apply`. -/
def apply_extract : List Incident → Except PyExc (List (Incident × Option ℚ × Option ℚ))
  | [] => Except.ok []
  | c :: cs => do
      let p ← extract_lat_lon c.location
      let rest ← apply_extract cs
      Except.ok ((c, p.1, p.2) :: rest)

/-- `df.dropna(subset=['latitude', 'longitude'])`: keep the rows where both
derived coordinates are present. -/
def dropna (rows : List (Incident × Option ℚ × Option ℚ)) : List (Incident × ℚ × ℚ) :=
  rows.filterMap (fun r =>
    match r.2.1, r.2.2 with
    | some la, some lo => some (r.1, la, lo)
    | _, _ => Option.none)

/-- Lines 235-253: `fetch_crime_data(date)`.  Returns the incident rows
with resolved coordinates together with the diagnostics written through
`logger.error`; every raise inside the `try` block is caught by
`except Exception`, so the function itself never raises.  A non-200 status
logs two diagnostics and yields the trailing empty frame; a 200 response
with an empty body yields the empty frame with no error diagnostic. -/
def fetch_crime_data (resp : Except PyExc HttpResponse) :
    List (Incident × ℚ × ℚ) × List String :=
  match resp with
  | Except.error _ => ([], ["Exception occurred while fetching crime data"])
  | Except.ok r =>
      if r.status = 200 then
        match r.jsonBody with
        | Except.error _ => ([], ["Exception occurred while fetching crime data"])
        | Except.ok crimes =>
            if crimes.isEmpty then ([], [])
            else
              match apply_extract crimes with
              | Except.ok rows => (dropna rows, [])
              | Except.error _ => ([], ["Exception occurred while fetching crime data"])
      else ([], ["Error fetching crime data: " ++ toString r.status, "Response: " ++ r.text])

/-! ## Rank and total count in `display_lsoa_info` (lines 503-511) -/

/-- `df.drop_duplicates(subset=['LSOA21NM'])`: keep the first row for each
LSOA name; `seen` accumulates the names already kept. -/
def dropDuplicatesByName (α : Type) : List (String × α) → List String → List (String × α)
  | [], _ => []
  | r :: rs, seen =>
      if seen.contains r.1 then dropDuplicatesByName α rs seen
      else r :: dropDuplicatesByName α rs (r.1 :: seen)

/-- Case-insensitive substring test, the semantics of
`Series.str.contains(lsoa_name, case=False)` for a plain (non-regex,
already upper-cased) query. -/
def isSubAt (needle : List Char) : List Char → Bool
  | [] => needle.isEmpty
  | c :: cs => needle.isPrefixOf (c :: cs) || isSubAt needle cs

/-- Name filter of lines 498 and 509: case-insensitive containment of the
stripped query in the row's LSOA name. -/
def nameMatches (query name : String) : Bool :=
  isSubAt (query.data.map Char.toUpper) (name.data.map Char.toUpper)

/-- Lines 503-511 for one queried name: deduplicate the joined table by
LSOA name, sort by the selected variable descending, pick the first row
whose name matches, and return its min-method descending rank (`1 +` the
number of strictly greater values) together with
`df_unique['LSOA21NM'].nunique()`. -/
def display_stats (rows : List (String × ℚ)) (query : String) : Option (Nat × Nat) :=
  let uniq := dropDuplicatesByName ℚ rows []
  let sorted := List.insertionSort (fun a b => b.2 ≤ a.2) uniq
  match sorted.find? (fun r => nameMatches query r.1) with
  | some r =>
      some (1 + (sorted.filter (fun x => decide (r.2 < x.2))).length,
            ((uniq.map (fun x => x.1)).dedup).length)
  | Option.none => Option.none

/-- The joined table's (name, value) projection, as `display_lsoa_info`
reads it: one row per (small area, ward) match. -/
def joined_rows (ls : List (Feature (String × ℚ))) (ws : List (Feature String)) :
    List (String × ℚ) :=
  (sjoin_left ls ws).map (fun r => r.2.1)

/-! ## Theorems -/

/-- C2 (code bug): the claim says `extract_lat_lon` returns null for both
coordinates, with no escaping exception, on a missing latitude/longitude
key or on a bare `null` marker.  In the code, `dict.get` then yields `None`
and `float(None)` raises `TypeError`, which `except (ValueError,
SyntaxError)` does not catch: the exception escapes to the caller.  The
third conjunct shows the genuinely malformed string from the spec's test is
caught as claimed (so the slip is exactly the missing `TypeError` clause). -/
theorem extract_lat_lon_uncaught_typeerror :
    extract_lat_lon "\x7b\x27longitude\x27: \x27-0.2\x27\x7d" =
      Except.error PyExc.typeError ∧
    extract_lat_lon "\x7b\x22latitude\x22: null, \x22longitude\x22: \x22-0.2\x22\x7d" =
      Except.error PyExc.typeError ∧
    extract_lat_lon "not a mapping" = Except.ok (Option.none, Option.none) := by
  refine ⟨?_, ?_, ?_⟩ <;> with_unfolding_all rfl

set_option maxRecDepth 8000 in
/-- C3: on `values = [1, 2, ..., 100]` the decile thresholds computed by
line 422 (`np.percentile`, linear interpolation at rank `p / 100 * (n - 1)`)
are `[10.9, 20.8, ..., 90.1, 100]` — in particular the 10th-percentile
threshold is `10.9` — and `get_color` sends `1` to the first tier's color
and `100` to the last tier's color. -/
theorem thresholds_values100_spec :
    thresholds values100 =
      [109/10, 104/5, 307/10, 203/5, 101/2, 302/5, 703/10, 401/5, 901/10, 100] ∧
    get_color values100 1 = colors.getD 0 "" ∧
    get_color values100 100 = colors.getLastD "" ∧
    colors.getD 0 "" = "#800026" ∧ colors.getLastD "" = "#FFFFFF" := by
  refine ⟨?_, ?_, ?_, ?_, ?_⟩ <;> with_unfolding_all rfl

/-- Helper: `getD` with in-range indices on a `(· ≤ ·)`-sorted list is
monotone in the index. -/
theorem getD_mono_of_sorted (a : List ℚ) (ha : a.Sorted (· ≤ ·)) {i j : Nat}
    (hij : i ≤ j) (hj : j < a.length) : a.getD i 0 ≤ a.getD j 0 := by
  have hi : i < a.length := lt_of_le_of_lt hij hj
  rw [List.getD_eq_getElem?_getD, List.getD_eq_getElem?_getD,
    List.getElem?_eq_getElem hi, List.getElem?_eq_getElem hj]
  exact ha.rel_get_of_le (a := ⟨i, hi⟩) (b := ⟨j, hj⟩) hij

/-- Helper: linear interpolation between order statistics of a sorted list
is monotone in the rank, over the rank interval `[0, n - 1]`. -/
theorem interpAt_mono (a : List ℚ) (ha : a.Sorted (· ≤ ·)) {r1 r2 : ℚ}
    (h0 : 0 ≤ r1) (h12 : r1 ≤ r2) (h2 : r2 ≤ (a.length : ℚ) - 1) :
    interpAt a r1 ≤ interpAt a r2 := by
  have h02 : (0 : ℚ) ≤ r2 := le_trans h0 h12
  have hn1 : (1 : ℚ) ≤ (a.length : ℚ) := by linarith
  have hn : 1 ≤ a.length := by exact_mod_cast hn1
  have hk12 : ⌊r1⌋₊ ≤ ⌊r2⌋₊ := Nat.floor_le_floor h12
  have hk2n : ⌊r2⌋₊ < a.length := by
    have hcast : ((a.length - 1 : ℕ) : ℚ) = (a.length : ℚ) - 1 := by
      push_cast [Nat.cast_sub hn]
      ring
    have h2' : r2 ≤ ((a.length - 1 : ℕ) : ℚ) := by rw [hcast]; exact h2
    have hle := Nat.floor_le_floor h2'
    rw [Nat.floor_natCast] at hle
    omega
  have hr1k : (⌊r1⌋₊ : ℚ) ≤ r1 := Nat.floor_le h0
  have hr1k1 : r1 < ⌊r1⌋₊ + 1 := Nat.lt_floor_add_one r1
  have hr2k : (⌊r2⌋₊ : ℚ) ≤ r2 := Nat.floor_le h02
  rcases eq_or_lt_of_le hk12 with heq | hlt
  · -- both ranks fall in the same cell
    simp only [interpAt, ← heq]
    by_cases hc : ⌊r1⌋₊ + 1 < a.length
    · simp only [if_pos hc]
      have hd : 0 ≤ a.getD (⌊r1⌋₊ + 1) 0 - a.getD ⌊r1⌋₊ 0 := by
        have := getD_mono_of_sorted a ha (Nat.le_succ ⌊r1⌋₊) hc
        linarith
      have hrr : r1 - (⌊r1⌋₊ : ℚ) ≤ r2 - (⌊r1⌋₊ : ℚ) := by linarith
      nlinarith
    · simp only [if_neg hc]
      exact le_refl _
  · -- the second rank falls in a strictly later cell
    have hk1n : ⌊r1⌋₊ + 1 < a.length := by omega
    have hup : interpAt a r1 ≤ a.getD (⌊r1⌋₊ + 1) 0 := by
      simp only [interpAt, if_pos hk1n]
      have hd : 0 ≤ a.getD (⌊r1⌋₊ + 1) 0 - a.getD ⌊r1⌋₊ 0 := by
        have := getD_mono_of_sorted a ha (Nat.le_succ ⌊r1⌋₊) hk1n
        linarith
      have ht1 : r1 - (⌊r1⌋₊ : ℚ) ≤ 1 := by linarith
      nlinarith
    have hmid : a.getD (⌊r1⌋₊ + 1) 0 ≤ a.getD ⌊r2⌋₊ 0 :=
      getD_mono_of_sorted a ha (by omega) hk2n
    have hlow : a.getD ⌊r2⌋₊ 0 ≤ interpAt a r2 := by
      simp only [interpAt]
      by_cases hc : ⌊r2⌋₊ + 1 < a.length
      · simp only [if_pos hc]
        have hd : 0 ≤ a.getD (⌊r2⌋₊ + 1) 0 - a.getD ⌊r2⌋₊ 0 := by
          have := getD_mono_of_sorted a ha (Nat.le_succ ⌊r2⌋₊) hc
          linarith
        nlinarith
      · simp only [if_neg hc]
        exact le_refl _
    linarith

/-- Helper: `np.percentile` is monotone in the percentage for a non-empty
data set and percentages within `[0, 100]`. -/
theorem np_percentile_mono (values : List ℚ) (hne : values ≠ []) {p q : ℚ}
    (hp : 0 ≤ p) (hpq : p ≤ q) (hq : q ≤ 100) :
    np_percentile values p ≤ np_percentile values q := by
  unfold np_percentile
  have hsort : (List.insertionSort (· ≤ ·) values).Sorted (· ≤ ·) :=
    List.sorted_insertionSort (· ≤ ·) values
  have hlen : (List.insertionSort (· ≤ ·) values).length = values.length :=
    List.length_insertionSort _ _
  have hpos : 0 < values.length := List.length_pos.mpr hne
  have hn1 : (0 : ℚ) ≤ ((List.insertionSort (· ≤ ·) values).length : ℚ) - 1 := by
    rw [hlen]
    have : (1 : ℚ) ≤ (values.length : ℚ) := by exact_mod_cast hpos
    linarith
  apply interpAt_mono _ hsort
  · positivity
  · apply div_le_div_of_nonneg_right ?_ (by norm_num)
    exact mul_le_mul_of_nonneg_right hpq hn1
  · rw [div_le_iff₀ (by norm_num : (0 : ℚ) < 100)]
    nlinarith

/-- Helper: the decile threshold array of line 422 is non-decreasing. -/
theorem thresholds_chain (values : List ℚ) (hne : values ≠ []) :
    List.Chain' (· ≤ ·) (thresholds values) := by
  have pm : ∀ p q : ℚ, 0 ≤ p → p ≤ q → q ≤ 100 →
      np_percentile values p ≤ np_percentile values q :=
    fun p q a b c => np_percentile_mono values hne a b c
  simp only [thresholds, percentiles, List.map_cons, List.map_nil,
    List.chain'_cons, List.chain'_singleton, and_true]
  refine ⟨?_, ?_, ?_, ?_, ?_, ?_, ?_, ?_, ?_⟩ <;> apply pm <;> norm_num

/-- Helper: the threshold array always has ten entries. -/
theorem thresholds_length (values : List ℚ) : (thresholds values).length = 10 := by
  simp [thresholds, percentiles]

/-- Helper: the `get_color` loop falls through to `colors[-1]` when no
threshold is at least the value. -/
theorem color_loop_of_none (v : ℚ) :
    ∀ (ts : List ℚ) (i : Nat), (∀ t ∈ ts, ¬ v ≤ t) →
      color_loop v ts i = colors.getLastD "" := by
  intro ts
  induction ts with
  | nil => intro i _; rfl
  | cons t ts ih =>
      intro i h
      have ht : ¬ v ≤ t := h t (List.mem_cons_self t ts)
      simp only [color_loop, if_neg ht]
      exact ih (i + 1) (fun u hu => h u (List.mem_cons_of_mem t hu))

/-- Helper: the `get_color` loop stops at the first satisfied threshold
and returns the color at the matching enumeration index. -/
theorem color_loop_of_first (v : ℚ) :
    ∀ (ts : List ℚ) (i j : Nat), j < ts.length → v ≤ ts.getD j 0 →
      (∀ j', j' < j → ¬ v ≤ ts.getD j' 0) →
      color_loop v ts i = colors.getD (i + j) "" := by
  intro ts
  induction ts with
  | nil => intro i j hj; exact absurd hj (by simp)
  | cons t ts ih =>
      intro i j hj hsat hmin
      by_cases ht : v ≤ t
      · have hj0 : j = 0 := by
          by_contra hne
          exact hmin 0 (Nat.pos_of_ne_zero hne) (by simpa using ht)
        subst hj0
        simp only [color_loop, if_pos ht, Nat.add_zero]
      · have hj0 : j ≠ 0 := by
          intro h0
          subst h0
          exact ht (by simpa using hsat)
        obtain ⟨j', rfl⟩ := Nat.exists_eq_succ_of_ne_zero hj0
        simp only [color_loop, if_neg ht]
        have := ih (i + 1) j' (by simpa using Nat.lt_of_succ_lt_succ hj)
          (by simpa using hsat)
          (fun j'' hj'' => by simpa using hmin (j'' + 1) (Nat.succ_lt_succ hj''))
        rw [this]
        congr 1
        omega

/-- Helper: `firstIdx` returns nothing iff no element satisfies. -/
theorem firstIdx_eq_none (p : ℚ → Bool) :
    ∀ ts : List ℚ, firstIdx p ts = Option.none ↔ ∀ t ∈ ts, p t = false := by
  intro ts
  induction ts with
  | nil => simp [firstIdx]
  | cons t ts ih =>
      by_cases hp : p t
      · simp [firstIdx, hp]
      · simp only [firstIdx, if_neg hp, List.mem_cons]
        constructor
        · intro h u hu
          rcases hu with rfl | hu
          · simpa using hp
          · exact (ih.mp (by simpa using h)) u hu
        · intro h
          rw [ih.mpr (fun u hu => h u (Or.inr hu))]
          rfl

/-- Helper: what a successful `firstIdx` search means: the index is in
range, its element satisfies, and no earlier element does. -/
theorem firstIdx_eq_some (p : ℚ → Bool) :
    ∀ (ts : List ℚ) (i : Nat), firstIdx p ts = some i →
      i < ts.length ∧ p (ts.getD i 0) = true ∧
        ∀ j, j < i → p (ts.getD j 0) = false := by
  intro ts
  induction ts with
  | nil => intro i h; exact absurd h (by simp [firstIdx])
  | cons t ts ih =>
      intro i h
      by_cases hp : p t
      · simp only [firstIdx, if_pos hp] at h
        cases h
        refine ⟨by simp, by simpa using hp, ?_⟩
        intro j hj
        omega
      · simp only [firstIdx, if_neg hp, Option.map_eq_some'] at h
        obtain ⟨i', hi', rfl⟩ := h
        obtain ⟨h1, h2, h3⟩ := ih i' hi'
        refine ⟨by simpa using Nat.succ_lt_succ h1, by simpa using h2, ?_⟩
        intro j hj
        cases j with
        | zero => simpa using hp
        | succ j' => simpa using h3 j' (Nat.lt_of_succ_lt_succ hj)

/-- Helper: if some in-range element satisfies, `firstIdx` succeeds with an
index no greater than that element's. -/
theorem firstIdx_le_of_sat (p : ℚ → Bool) :
    ∀ (ts : List ℚ) (i : Nat), i < ts.length → p (ts.getD i 0) = true →
      ∃ j, firstIdx p ts = some j ∧ j ≤ i := by
  intro ts
  induction ts with
  | nil => intro i h; exact absurd h (by simp)
  | cons t ts ih =>
      intro i hi hsat
      by_cases hp : p t
      · exact ⟨0, by simp [firstIdx, hp], Nat.zero_le i⟩
      · cases i with
        | zero => exact absurd (by simpa using hsat) (by simpa using hp)
        | succ i' =>
            obtain ⟨j, hj, hji⟩ := ih i' (Nat.lt_of_succ_lt_succ hi) (by simpa using hsat)
            exact ⟨j + 1, by simp [firstIdx, hp, hj], Nat.succ_le_succ hji⟩

/-- Helper: `get_color` returns exactly the color of tier `tierIdx`. -/
theorem get_color_eq_tierIdx (values : List ℚ) (v : ℚ) :
    get_color values v = colors.getD (tierIdx values v) "" := by
  unfold get_color tierIdx
  cases hfi : firstIdx (fun t => decide (v ≤ t)) (thresholds values) with
  | none =>
      have hall := (firstIdx_eq_none _ (thresholds values)).mp hfi
      rw [color_loop_of_none v (thresholds values) 0
        (fun t ht => by simpa using hall t ht)]
      rfl
  | some i =>
      obtain ⟨h1, h2, h3⟩ := firstIdx_eq_some _ (thresholds values) i hfi
      rw [color_loop_of_first v (thresholds values) 0 i h1 (by simpa using h2)
        (fun j hj => by simpa using h3 j hj)]
      simp

/-- Helper: sorting a constant list gives a constant list. -/
theorem insertionSort_const (values : List ℚ) (c : ℚ) (hc : ∀ x ∈ values, x = c) :
    List.insertionSort (· ≤ ·) values = List.replicate values.length c := by
  induction values with
  | nil => rfl
  | cons x xs ih =>
      have hx : x = c := hc x (List.mem_cons_self x xs)
      have hxs : List.insertionSort (· ≤ ·) xs = List.replicate xs.length c :=
        ih (fun y hy => hc y (List.mem_cons_of_mem x hy))
      subst hx
      rw [List.insertionSort, hxs]
      cases xs with
      | nil => rfl
      | cons y ys =>
          simp only [List.length_cons, List.replicate_succ, List.orderedInsert, if_pos (le_refl x)]

/-- Helper: interpolating anywhere inside a constant array yields the
constant. -/
theorem interpAt_replicate (n : Nat) (c : ℚ) {r : ℚ} (h0 : 0 ≤ r)
    (h2 : r ≤ (n : ℚ) - 1) : interpAt (List.replicate n c) r = c := by
  have hn1 : (1 : ℚ) ≤ (n : ℚ) := by linarith
  have hn : 1 ≤ n := by exact_mod_cast hn1
  have hkn : ⌊r⌋₊ < n := by
    have hcast : ((n - 1 : ℕ) : ℚ) = (n : ℚ) - 1 := by
      push_cast [Nat.cast_sub hn]
      ring
    have hle := Nat.floor_le_floor (le_trans h2 (le_of_eq hcast.symm))
    rw [Nat.floor_natCast] at hle
    omega
  have hget : ∀ k, k < n → (List.replicate n c).getD k 0 = c := by
    intro k hk
    rw [List.getD_eq_getElem?_getD,
      List.getElem?_eq_getElem (by simpa using hk)]
    simp
  simp only [interpAt, List.length_replicate]
  by_cases hcase : ⌊r⌋₊ + 1 < n
  · rw [if_pos hcase, hget _ hkn, hget _ hcase]
    ring
  · rw [if_neg hcase, hget _ hkn]

/-- Helper: every percentile of a constant non-empty data set is the
constant. -/
theorem np_percentile_const (values : List ℚ) (c : ℚ) (hne : values ≠ [])
    (hc : ∀ x ∈ values, x = c) {p : ℚ} (hp : 0 ≤ p) (hp2 : p ≤ 100) :
    np_percentile values p = c := by
  unfold np_percentile
  rw [insertionSort_const values c hc]
  have hpos : 0 < values.length := List.length_pos.mpr hne
  have h1 : (1 : ℚ) ≤ (values.length : ℚ) := by exact_mod_cast hpos
  apply interpAt_replicate
  · rw [List.length_replicate]
    exact div_nonneg (mul_nonneg hp (by linarith)) (by norm_num)
  · rw [List.length_replicate, div_le_iff₀ (by norm_num : (0 : ℚ) < 100)]
    nlinarith

/-- Helper: the threshold array of a constant non-empty data set collapses
to ten copies of the constant. -/
theorem thresholds_const (values : List ℚ) (c : ℚ) (hne : values ≠ [])
    (hc : ∀ x ∈ values, x = c) : thresholds values = List.replicate 10 c := by
  have hP : ∀ p : ℚ, 0 ≤ p → p ≤ 100 → np_percentile values p = c :=
    fun p a b => np_percentile_const values c hne hc a b
  simp only [thresholds, percentiles, List.map_cons, List.map_nil]
  rw [hP 10 (by norm_num) (by norm_num), hP 20 (by norm_num) (by norm_num),
    hP 30 (by norm_num) (by norm_num), hP 40 (by norm_num) (by norm_num),
    hP 50 (by norm_num) (by norm_num), hP 60 (by norm_num) (by norm_num),
    hP 70 (by norm_num) (by norm_num), hP 80 (by norm_num) (by norm_num),
    hP 90 (by norm_num) (by norm_num), hP 100 (by norm_num) (by norm_num)]
  rfl

/-- C4: for every threshold array derived from a non-empty values list,
`get_color` scans the ten tiers in ascending order and returns the color of
the first tier whose threshold is at least the value; when no tier
satisfies, it returns the last tier's color (`colors[-1]`). -/
theorem get_color_first_tier (values : List ℚ) (v : ℚ) (hne : values ≠ []) :
    (∀ i, i < 10 → v ≤ (thresholds values).getD i 0 →
        (∀ j, j < i → ¬ v ≤ (thresholds values).getD j 0) →
        get_color values v = colors.getD i "") ∧
    ((∀ i, i < 10 → ¬ v ≤ (thresholds values).getD i 0) →
        get_color values v = colors.getLastD "") := by
  clear hne
  constructor
  · intro i hi hsat hmin
    have := color_loop_of_first v (thresholds values) 0 i
      (by rw [thresholds_length]; exact hi) hsat hmin
    simpa [get_color] using this
  · intro hall
    apply color_loop_of_none
    intro t ht
    obtain ⟨k, hk, rfl⟩ := List.getElem_of_mem ht
    have hk10 : k < 10 := by rw [thresholds_length] at hk; exact hk
    have := hall k hk10
    rwa [List.getD_eq_getElem?_getD, List.getElem?_eq_getElem hk] at this

set_option maxRecDepth 8000 in
/-- Witness for C4: with values `[5]` the value `3` is at most the first
threshold, so it gets the first tier's color. -/
theorem get_color_first_tier_witness :
    (([5] : List ℚ) ≠ []) ∧ get_color [5] 3 = colors.getD 0 "" := by
  have h5 : thresholds [5] = List.replicate 10 5 := by with_unfolding_all rfl
  refine ⟨by simp, (get_color_first_tier [5] 3 (by simp)).1 0 (by norm_num) ?_ ?_⟩
  · rw [h5]
    decide
  · intro j hj
    exact absurd hj (Nat.not_lt_zero j)

set_option maxRecDepth 8000 in
/-- C5 (counterexample): for the single-valued list `[5]` all ten
thresholds do collapse to `5`, but the input value `6` is mapped to the
last tier's color, not the first tier's color — so "every input value maps
to the first tier's color" fails as stated. -/
theorem get_color_degenerate_counterexample :
    thresholds [5] = List.replicate 10 5 ∧
    get_color [5] 6 = "#FFFFFF" ∧
    colors.getD 0 "" = "#800026" ∧
    get_color [5] 6 ≠ colors.getD 0 "" := by
  have h1 : thresholds [5] = List.replicate 10 5 := by with_unfolding_all rfl
  have h2 : get_color [5] 6 = "#FFFFFF" := by with_unfolding_all rfl
  refine ⟨h1, h2, by rfl, ?_⟩
  rw [h2]
  decide

/-- C5 (amended): if the values list is non-empty with a single distinct
value `c`, all ten thresholds collapse to `c` and every input value that
does not exceed `c` — in particular every member of the values list — maps
to the first tier's color, while an input value strictly above `c` maps to
the last tier's color; and `buildColorFn` on the empty list fails with the
InputError. -/
theorem get_color_degenerate_amended :
    (∀ (values : List ℚ) (c : ℚ), values ≠ [] → (∀ x ∈ values, x = c) →
      thresholds values = List.replicate 10 c ∧
      (∀ v : ℚ, v ≤ c → get_color values v = colors.getD 0 "") ∧
      (∀ x ∈ values, get_color values x = colors.getD 0 "") ∧
      (∀ v : ℚ, c < v → get_color values v = colors.getLastD "")) ∧
    buildColorFn [] = Except.error "InputError" := by
  refine ⟨?_, rfl⟩
  intro values c hne hc
  have ht := thresholds_const values c hne hc
  have hfirst : ∀ v : ℚ, v ≤ c → get_color values v = colors.getD 0 "" := by
    intro v hv
    unfold get_color
    rw [ht]
    simp only [List.replicate_succ, color_loop, if_pos hv]
  refine ⟨ht, hfirst, fun x hx => hfirst x (le_of_eq (hc x hx)), ?_⟩
  intro v hv
  unfold get_color
  apply color_loop_of_none
  intro t htm
  rw [ht] at htm
  rw [List.eq_of_mem_replicate htm]
  exact not_le.mpr hv

/-- Witness for C5 (amended) at `values = [5]`: the thresholds collapse and
the member `5` receives the first tier's color. -/
theorem get_color_degenerate_amended_witness :
    (([5] : List ℚ) ≠ []) ∧ thresholds [5] = List.replicate 10 5 ∧
    get_color [5] 5 = colors.getD 0 "" := by
  have h := get_color_degenerate_amended.1 [5] 5 (by simp) (by simp)
  exact ⟨by simp, h.1, h.2.2.1 5 (by simp)⟩

/-- C10: for a non-empty values list the decile threshold array of line
422 is non-decreasing, `get_color` colors every value with tier
`tierIdx`, and the assigned tier index is monotone in the queried value. -/
theorem thresholds_monotone_color_monotone (values : List ℚ) (hne : values ≠ []) :
    List.Chain' (· ≤ ·) (thresholds values) ∧
    (∀ v : ℚ, get_color values v = colors.getD (tierIdx values v) "") ∧
    ∀ v1 v2 : ℚ, v1 ≤ v2 → tierIdx values v1 ≤ tierIdx values v2 := by
  refine ⟨thresholds_chain values hne, fun v => get_color_eq_tierIdx values v, ?_⟩
  intro v1 v2 h12
  unfold tierIdx
  cases h2 : firstIdx (fun t => decide (v2 ≤ t)) (thresholds values) with
  | none =>
      cases h1 : firstIdx (fun t => decide (v1 ≤ t)) (thresholds values) with
      | none => exact le_refl 9
      | some j =>
          obtain ⟨hj, _, _⟩ := firstIdx_eq_some _ _ j h1
          rw [thresholds_length] at hj
          simp only []
          omega
  | some i =>
      obtain ⟨hi, hsat, _⟩ := firstIdx_eq_some _ _ i h2
      have hsat1 : (fun t => decide (v1 ≤ t)) ((thresholds values).getD i 0) = true := by
        simp only [decide_eq_true_eq] at hsat ⊢
        exact le_trans h12 hsat
      obtain ⟨j, hj, hji⟩ :=
        firstIdx_le_of_sat (fun t => decide (v1 ≤ t)) (thresholds values) i hi hsat1
      rw [hj]
      exact hji

set_option maxRecDepth 8000 in
/-- Witness for C10 at `values = [1, 5]` and query values `2 ≤ 4`. -/
theorem thresholds_monotone_color_monotone_witness :
    (([1, 5] : List ℚ) ≠ []) ∧ tierIdx [1, 5] 2 ≤ tierIdx [1, 5] 4 :=
  ⟨by simp, (thresholds_monotone_color_monotone [1, 5] (by simp)).2.2 2 4 (by norm_num)⟩

/-- Helper: every row a left feature contributes carries that feature's
index tag. -/
theorem matchRows_tag {α β : Type} (ws : List (Feature β)) (l : Feature α) (idx : Nat) :
    ∀ r ∈ matchRows ws l idx, r.1 = idx := by
  intro r hr
  unfold matchRows at hr
  by_cases h : (ws.filter (fun w => intersects l w)).isEmpty
  · simp only [if_pos h, List.mem_singleton] at hr
    rw [hr]
  · simp only [if_neg h, List.mem_map] at hr
    obtain ⟨w, _, rfl⟩ := hr
    rfl

/-- Helper: every row a left feature contributes carries that feature's
attribute payload unchanged. -/
theorem matchRows_attrs {α β : Type} (ws : List (Feature β)) (l : Feature α) (idx : Nat) :
    ∀ r ∈ matchRows ws l idx, r.2.1 = l.attrs := by
  intro r hr
  unfold matchRows at hr
  by_cases h : (ws.filter (fun w => intersects l w)).isEmpty
  · simp only [if_pos h, List.mem_singleton] at hr
    rw [hr]
  · simp only [if_neg h, List.mem_map] at hr
    obtain ⟨w, _, rfl⟩ := hr
    rfl

/-- Helper: a left feature always contributes at least one row. -/
theorem matchRows_ne_nil {α β : Type} (ws : List (Feature β)) (l : Feature α) (idx : Nat) :
    matchRows ws l idx ≠ [] := by
  unfold matchRows
  by_cases h : (ws.filter (fun w => intersects l w)).isEmpty
  · rw [if_pos h]
    simp
  · rw [if_neg h]
    intro hmap
    exact h (by rw [List.map_eq_nil.mp hmap]; rfl)

/-- Helper: every index tag in `sjoin_aux ws ls i0` is at least `i0`. -/
theorem sjoin_aux_tag_ge {α β : Type} (ws : List (Feature β)) :
    ∀ (ls : List (Feature α)) (i0 : Nat), ∀ r ∈ sjoin_aux ws ls i0, i0 ≤ r.1 := by
  intro ls
  induction ls with
  | nil => intro i0 r hr; exact absurd hr (by simp [sjoin_aux])
  | cons l ls ih =>
      intro i0 r hr
      rw [sjoin_aux, List.mem_append] at hr
      rcases hr with hr | hr
      · exact le_of_eq (matchRows_tag ws l i0 r hr).symm
      · exact le_trans (Nat.le_succ i0) (ih (i0 + 1) r hr)

/-- Helper: filtering the join output on one left index yields exactly that
feature's contributed rows. -/
theorem sjoin_aux_filter_eq {α β : Type} (ws : List (Feature β)) :
    ∀ (ls : List (Feature α)) (i0 j : Nat) (h : j < ls.length),
      (sjoin_aux ws ls i0).filter (fun r => r.1 == i0 + j) =
        matchRows ws (ls.get ⟨j, h⟩) (i0 + j) := by
  intro ls
  induction ls with
  | nil => intro i0 j h; exact absurd h (by simp)
  | cons l ls ih =>
      intro i0 j h
      rw [sjoin_aux, List.filter_append]
      cases j with
      | zero =>
          have h1 : (matchRows ws l i0).filter (fun r => r.1 == i0 + 0) = matchRows ws l i0 := by
            apply List.filter_eq_self.mpr
            intro r hr
            simp [matchRows_tag ws l i0 r hr]
          have h2 : (sjoin_aux ws ls (i0 + 1)).filter (fun r => r.1 == i0 + 0) = [] := by
            apply List.filter_eq_nil.mpr
            intro r hr
            have := sjoin_aux_tag_ge ws ls (i0 + 1) r hr
            simp only [Nat.beq_eq_true_eq]
            omega
          rw [h1, h2, List.append_nil]
          rfl
      | succ j' =>
          have h1 : (matchRows ws l i0).filter (fun r => r.1 == i0 + (j' + 1)) = [] := by
            apply List.filter_eq_nil.mpr
            intro r hr
            have := matchRows_tag ws l i0 r hr
            simp only [Nat.beq_eq_true_eq]
            omega
          have h2 := ih (i0 + 1) j' (by simpa using Nat.lt_of_succ_lt_succ h)
          rw [h1, List.nil_append]
          have harith : i0 + 1 + j' = i0 + (j' + 1) := by omega
          rw [harith] at h2
          rw [h2]
          rfl

/-- C1: the spatial join of line 42 is left with respect to the small
areas: each left index contributes at least one output row; every one of
its rows carries its attribute payload unchanged; and a small area
intersecting no ward yields exactly one row, with null ward fields. -/
theorem sjoin_left_is_left_join {α β : Type} (ls : List (Feature α))
    (ws : List (Feature β)) (i : Nat) (h : i < ls.length) :
    rowsFor ls ws i ≠ [] ∧
    (∀ r ∈ rowsFor ls ws i, r.2.1 = (ls.get ⟨i, h⟩).attrs) ∧
    ((∀ w ∈ ws, intersects (ls.get ⟨i, h⟩) w = false) →
      rowsFor ls ws i = [(i, (ls.get ⟨i, h⟩).attrs, Option.none)]) := by
  have hr : rowsFor ls ws i = matchRows ws (ls.get ⟨i, h⟩) i := by
    have := sjoin_aux_filter_eq ws ls 0 i h
    simpa [rowsFor, sjoin_left] using this
  rw [hr]
  refine ⟨matchRows_ne_nil ws _ i, matchRows_attrs ws _ i, ?_⟩
  intro hno
  have hfe : ws.filter (fun w => intersects (ls.get ⟨i, h⟩) w) = [] :=
    List.filter_eq_nil.mpr (fun w hw => by rw [hno w hw]; exact Bool.false_ne_true)
  unfold matchRows
  rw [hfe]
  rfl

/-- Witness for C1: a single small area and no wards — the join keeps the
area once, with null ward fields and unchanged attributes. -/
theorem sjoin_left_is_left_join_witness :
    (0 : Nat) < [Feature.mk [0] "a"].length ∧
    rowsFor [Feature.mk [0] "a"] ([] : List (Feature String)) 0 =
      [(0, "a", Option.none)] := by
  refine ⟨by norm_num, ?_⟩
  have h := sjoin_left_is_left_join [Feature.mk [0] "a"] ([] : List (Feature String))
    0 (by norm_num)
  exact h.2.2 (fun w hw => absurd hw (List.not_mem_nil w))

/-- Helper: a feature collection containing a geometry-less feature makes
`from_features` raise. -/
theorem from_features_error_of_missing {α : Type} :
    ∀ fs : List (RawFeature α), (∃ f ∈ fs, f.geometry = Option.none) →
      from_features fs = Except.error PyExc.keyError := by
  intro fs
  induction fs with
  | nil => intro h; obtain ⟨f, hf, _⟩ := h; exact absurd hf (List.not_mem_nil f)
  | cons f fs ih =>
      intro h
      cases hg : f.geometry with
      | none => simp [from_features, hg]
      | some g =>
          obtain ⟨f', hf', hf'g⟩ := h
          rcases List.mem_cons.mp hf' with rfl | hf'
          · exact absurd hg (by rw [hf'g]; exact fun hc => Option.noConfusion hc)
          · rw [from_features, hg, ih ⟨f', hf', hf'g⟩]
            rfl

/-- C6: if either feature collection is empty, or either contains a
feature with no geometry field, the join stage of lines 33-45 raises —
`from_features` on a missing geometry, or `set_crs` on the geometry-less
empty frame — so the `try` block is abandoned and no joined table (partial
or otherwise) is produced. -/
theorem lsoa_wards_join_fails {α β : Type} (lf : List (RawFeature α))
    (wf : List (RawFeature β))
    (hbad : lf = [] ∨ wf = [] ∨ (∃ f ∈ lf, f.geometry = Option.none) ∨
      (∃ f ∈ wf, f.geometry = Option.none)) :
    ∃ e, lsoa_wards_join lf wf = Except.error e := by
  cases hlf : from_features lf with
  | error e => exact ⟨e, by unfold lsoa_wards_join; rw [hlf]; rfl⟩
  | ok l =>
      cases hwf : from_features wf with
      | error e => exact ⟨e, by unfold lsoa_wards_join; rw [hlf, hwf]; rfl⟩
      | ok w =>
          rcases hbad with h | h | h | h
          · subst h
            have hl : l = [] := by
              rw [show from_features ([] : List (RawFeature α)) = Except.ok [] from rfl]
                at hlf
              exact (Except.ok.inj hlf).symm
            subst hl
            exact ⟨PyExc.valError, by unfold lsoa_wards_join; rw [hlf, hwf]; rfl⟩
          · subst h
            have hw : w = [] := by
              rw [show from_features ([] : List (RawFeature β)) = Except.ok [] from rfl]
                at hwf
              exact (Except.ok.inj hwf).symm
            subst hw
            cases l with
            | nil => exact ⟨PyExc.valError, by unfold lsoa_wards_join; rw [hlf, hwf]; rfl⟩
            | cons x xs =>
                exact ⟨PyExc.valError, by unfold lsoa_wards_join; rw [hlf, hwf]; rfl⟩
          · rw [from_features_error_of_missing lf h] at hlf
            exact absurd hlf (fun hc => Except.noConfusion hc)
          · rw [from_features_error_of_missing wf h] at hwf
            exact absurd hwf (fun hc => Except.noConfusion hc)

/-- Witness for C6: an empty small-area collection against one well-formed
ward — the stage raises instead of producing a table. -/
theorem lsoa_wards_join_fails_witness :
    (([] : List (RawFeature String)) = [] ∨ [RawFeature.mk (some [0]) "w"] = [] ∨
      (∃ f ∈ ([] : List (RawFeature String)), f.geometry = Option.none) ∨
      (∃ f ∈ [RawFeature.mk (some [0]) "w"], f.geometry = Option.none)) ∧
    ∃ e, lsoa_wards_join ([] : List (RawFeature String)) [RawFeature.mk (some [0]) "w"] =
      Except.error e :=
  ⟨Or.inl rfl, lsoa_wards_join_fails _ _ (Or.inl rfl)⟩

/-- Helper: every row surviving the coordinate `apply` records exactly what
`extract_lat_lon` returned for its incident. -/
theorem apply_extract_ok_mem :
    ∀ (cs : List Incident) (rows : List (Incident × Option ℚ × Option ℚ)),
      apply_extract cs = Except.ok rows →
      ∀ x ∈ rows, extract_lat_lon x.1.location = Except.ok (x.2.1, x.2.2) := by
  intro cs
  induction cs with
  | nil =>
      intro rows h x hx
      have : rows = [] := (Except.ok.inj h.symm)
      subst this
      exact absurd hx (List.not_mem_nil x)
  | cons c cs ih =>
      intro rows h x hx
      unfold apply_extract at h
      cases hp : extract_lat_lon c.location with
      | error e => rw [hp] at h; exact absurd h (fun hc => Except.noConfusion hc)
      | ok p =>
          rw [hp] at h
          cases hrest : apply_extract cs with
          | error e => rw [hrest] at h; exact absurd h (fun hc => Except.noConfusion hc)
          | ok rest =>
              rw [hrest] at h
              have hrows : (c, p.1, p.2) :: rest = rows := Except.ok.inj h
              subst hrows
              rcases List.mem_cons.mp hx with rfl | hx
              · simpa using hp
              · exact ih rest hrest x hx

/-- C7: `fetch_crime_data` never raises — a network failure or a non-200
status yields the empty table plus error diagnostics — and every row of a
returned table carries coordinates that `extract_lat_lon` successfully
parsed from that incident's location payload (rows with unparsed
coordinates are dropped by the `dropna`). -/
theorem fetch_crime_data_spec (resp : Except PyExc HttpResponse) :
    ((∃ e, resp = Except.error e) →
      fetch_crime_data resp = ([], ["Exception occurred while fetching crime data"])) ∧
    (∀ r, resp = Except.ok r → r.status ≠ 200 →
      (fetch_crime_data resp).1 = [] ∧ (fetch_crime_data resp).2 ≠ []) ∧
    (∀ c la lo, (c, la, lo) ∈ (fetch_crime_data resp).1 →
      extract_lat_lon c.location = Except.ok (some la, some lo)) := by
  refine ⟨?_, ?_, ?_⟩
  · rintro ⟨e, rfl⟩
    rfl
  · rintro r rfl hst
    simp only [fetch_crime_data]
    rw [if_neg hst]
    exact ⟨rfl, by simp⟩
  · intro c la lo hmem
    cases resp with
    | error e => exact absurd hmem (List.not_mem_nil _)
    | ok r =>
        simp only [fetch_crime_data] at hmem
        by_cases hst : r.status = 200
        · simp only [if_pos hst] at hmem
          cases hjson : r.jsonBody with
          | error e =>
              simp only [hjson] at hmem
              exact absurd hmem (List.not_mem_nil _)
          | ok crimes =>
              simp only [hjson] at hmem
              by_cases hemp : crimes.isEmpty
              · simp only [if_pos hemp] at hmem
                exact absurd hmem (List.not_mem_nil _)
              · simp only [if_neg hemp] at hmem
                cases happ : apply_extract crimes with
                | error e =>
                    simp only [happ] at hmem
                    exact absurd hmem (List.not_mem_nil _)
                | ok rows =>
                    simp only [happ] at hmem
                    simp only [dropna, List.mem_filterMap] at hmem
                    obtain ⟨a, ha, haeq⟩ := hmem
                    have hx := apply_extract_ok_mem crimes rows happ a ha
                    rcases a with ⟨c', la', lo'⟩
                    cases la' with
                    | none => exact absurd haeq (by simp)
                    | some la'' =>
                        cases lo' with
                        | none => exact absurd haeq (by simp)
                        | some lo'' =>
                            simp only [Option.some.injEq] at haeq
                            obtain ⟨rfl, rfl, rfl⟩ := Prod.mk.injEq .. ▸ haeq
                            exact hx
        · simp only [if_neg hst] at hmem
          exact absurd hmem (List.not_mem_nil _)

/-- Witness for C7: a 404 response yields the empty table and a non-empty
diagnostic log. -/
theorem fetch_crime_data_spec_witness :
    ((404 : Nat) ≠ 200) ∧
    (fetch_crime_data (Except.ok (HttpResponse.mk 404 (Except.ok []) "Not Found"))).1
      = [] ∧
    (fetch_crime_data (Except.ok (HttpResponse.mk 404 (Except.ok []) "Not Found"))).2
      ≠ [] :=
  ⟨by decide,
   ((fetch_crime_data_spec (Except.ok (HttpResponse.mk 404 (Except.ok []) "Not Found"))).2.1
     (HttpResponse.mk 404 (Except.ok []) "Not Found") rfl (by decide)).1,
   ((fetch_crime_data_spec (Except.ok (HttpResponse.mk 404 (Except.ok []) "Not Found"))).2.1
     (HttpResponse.mk 404 (Except.ok []) "Not Found") rfl (by decide)).2⟩

/-- Helper: the `Except` monad binds through a success. -/
theorem except_ok_bind {e a b : Type} (x : a) (f : a → Except e b) :
    (Except.ok x >>= f) = f x := rfl

/-- C8: whenever the (null-substituted) location string parses to a
mapping whose `latitude` and `longitude` entries convert to floats — in
particular when both are numeric strings — `extract_lat_lon` returns
exactly those two numbers, with no restriction relating them to real-world
coordinate ranges. -/
theorem extract_lat_lon_success (s : String) (d : List (String × PyVal)) (la lo : ℚ)
    (hparse : literalEval (String.mk (replaceNull s.data)) = Except.ok (PyVal.dict d))
    (hla : pyFloat (pyGetD d "latitude") = Except.ok la)
    (hlo : pyFloat (pyGetD d "longitude") = Except.ok lo) :
    extract_lat_lon s = Except.ok (some la, some lo) := by
  unfold extract_lat_lon
  rw [hparse]
  simp only [except_ok_bind, pyGet, hla, hlo]

/-- Witness for C8: the spec's success test — lat `"51.55"`, lon `"-0.2"`
come back as `51.55` and `-0.2` — and an out-of-range pair (`200.0`,
`-500`) is accepted unvalidated. -/
theorem extract_lat_lon_success_witness :
    extract_lat_lon "\x7b\x22latitude\x22:\x2251.55\x22,\x22longitude\x22:\x22-0.2\x22\x7d" =
      Except.ok (some (1031/20), some (-1/5)) ∧
    (1031/20 : ℚ) = 51.55 ∧ (-1/5 : ℚ) = -0.2 ∧
    extract_lat_lon "\x7b\x27latitude\x27: \x27200.0\x27, \x27longitude\x27: \x27-500\x27\x7d" =
      Except.ok (some 200, some (-500)) :=
  ⟨extract_lat_lon_success
      "\x7b\x22latitude\x22:\x2251.55\x22,\x22longitude\x22:\x22-0.2\x22\x7d"
      [("latitude", PyVal.str "51.55"), ("longitude", PyVal.str "-0.2")]
      (1031/20) (-1/5)
      (by with_unfolding_all rfl) (by with_unfolding_all rfl) (by with_unfolding_all rfl),
   by with_unfolding_all rfl, by with_unfolding_all rfl,
   extract_lat_lon_success
      "\x7b\x27latitude\x27: \x27200.0\x27, \x27longitude\x27: \x27-500\x27\x7d"
      [("latitude", PyVal.str "200.0"), ("longitude", PyVal.str "-500")]
      200 (-500)
      (by with_unfolding_all rfl) (by with_unfolding_all rfl) (by with_unfolding_all rfl)⟩

/-- Helper: `drop_duplicates` discards a whole prefix of already-seen
names. -/
theorem dedup_skip_all :
    ∀ (xs rest : List (String × ℚ)) (seen : List String),
      (∀ x ∈ xs, seen.contains x.1 = true) →
      dropDuplicatesByName ℚ (xs ++ rest) seen = dropDuplicatesByName ℚ rest seen := by
  intro xs
  induction xs with
  | nil => intro rest seen _; rfl
  | cons x xs ih =>
      intro rest seen h
      have hx : seen.contains x.1 = true := h x (List.mem_cons_self x xs)
      show dropDuplicatesByName ℚ (x :: (xs ++ rest)) seen = _
      rw [dropDuplicatesByName, if_pos hx]
      exact ih rest seen (fun y hy => h y (List.mem_cons_of_mem x hy))

/-- Helper: `drop_duplicates` keeps an all-fresh pairwise-distinct table
unchanged. -/
theorem dedup_nodup :
    ∀ (rows : List (String × ℚ)) (seen : List String),
      (∀ r ∈ rows, seen.contains r.1 = false) →
      List.Pairwise (fun a b => a.1 ≠ b.1) rows →
      dropDuplicatesByName ℚ rows seen = rows := by
  intro rows
  induction rows with
  | nil => intro seen _ _; rfl
  | cons r rows ih =>
      intro seen hfresh hpw
      have hr : seen.contains r.1 = false := hfresh r (List.mem_cons_self r rows)
      rw [dropDuplicatesByName, if_neg (by simp only [hr]; exact Bool.false_ne_true)]
      congr 1
      apply ih (r.1 :: seen) ?_ (List.Pairwise.of_cons hpw)
      intro x hx
      have hne : x.1 ≠ r.1 := Ne.symm ((List.pairwise_cons.mp hpw).1 x hx)
      have hf : x.1 ∉ seen := by simpa using hfresh x (List.mem_cons_of_mem r hx)
      simp [List.contains_cons, hne, hf]

/-- Helper: deduplicating the joined table by small-area name recovers
exactly the underlying small-area attribute table, one row per area in
frame order, provided area names are pairwise distinct. -/
theorem dedup_joined (ws : List (Feature String)) :
    ∀ (ls : List (Feature (String × ℚ))) (i0 : Nat) (seen : List String),
      (∀ l ∈ ls, seen.contains l.attrs.1 = false) →
      List.Pairwise (fun a b => a.attrs.1 ≠ b.attrs.1) ls →
      dropDuplicatesByName ℚ ((sjoin_aux ws ls i0).map (fun r => r.2.1)) seen =
        ls.map (fun l => l.attrs) := by
  intro ls
  induction ls with
  | nil => intro i0 seen _ _; rfl
  | cons l ls ih =>
      intro i0 seen hfresh hpw
      rw [sjoin_aux, List.map_append]
      cases hm : matchRows ws l i0 with
      | nil => exact absurd hm (matchRows_ne_nil ws l i0)
      | cons r rs =>
          have hr : r.2.1 = l.attrs :=
            matchRows_attrs ws l i0 r (hm ▸ List.mem_cons_self r rs)
          have hrs : ∀ x ∈ rs.map (fun r => r.2.1), x = l.attrs := by
            intro x hx
            obtain ⟨r', hr', rfl⟩ := List.mem_map.mp hx
            exact matchRows_attrs ws l i0 r' (hm ▸ List.mem_cons_of_mem r hr')
          have hl : seen.contains l.attrs.1 = false :=
            hfresh l (List.mem_cons_self l ls)
          rw [List.map_cons, hr, List.cons_append, dropDuplicatesByName,
            if_neg (by simp only [hl]; exact Bool.false_ne_true)]
          congr 1
          rw [dedup_skip_all (rs.map (fun r => r.2.1)) _ (l.attrs.1 :: seen)
            (fun x hx => by simp [List.contains_cons, hrs x hx])]
          apply ih (i0 + 1) (l.attrs.1 :: seen) ?_ (List.Pairwise.of_cons hpw)
          intro l' hl'
          have hne : l'.attrs.1 ≠ l.attrs.1 :=
            Ne.symm ((List.pairwise_cons.mp hpw).1 l' hl')
          have hf : l'.attrs.1 ∉ seen := by
            simpa using hfresh l' (List.mem_cons_of_mem l hl')
          simp [List.contains_cons, hne, hf]

/-- C9: when small-area names are pairwise distinct, deduplicating the
joined table by name recovers exactly the per-area table, so the rank and
the total-area count computed by `display_lsoa_info` over the joined table
coincide with those computed over the areas alone — row multiplication
from a small area intersecting several wards changes neither. -/
theorem display_stats_join_invariant (ls : List (Feature (String × ℚ)))
    (ws : List (Feature String)) (q : String)
    (hnd : (ls.map (fun l => l.attrs.1)).Nodup) :
    dropDuplicatesByName ℚ (joined_rows ls ws) [] = ls.map (fun l => l.attrs) ∧
    display_stats (joined_rows ls ws) q = display_stats (ls.map (fun l => l.attrs)) q := by
  have hpw : List.Pairwise (fun a b => a.attrs.1 ≠ b.attrs.1) ls :=
    List.pairwise_map.mp hnd
  have h1 : dropDuplicatesByName ℚ (joined_rows ls ws) [] = ls.map (fun l => l.attrs) :=
    dedup_joined ws ls 0 [] (fun l _ => rfl) hpw
  have hpw2 : List.Pairwise (fun a b => a.1 ≠ b.1) (ls.map (fun l => l.attrs)) :=
    List.pairwise_map.mpr hpw
  have h2 : dropDuplicatesByName ℚ (ls.map (fun l => l.attrs)) [] =
      ls.map (fun l => l.attrs) :=
    dedup_nodup _ [] (fun r _ => rfl) hpw2
  refine ⟨h1, ?_⟩
  unfold display_stats
  rw [joined_rows] at h1
  rw [joined_rows, h1, h2]

/-- Witness for C9: area A lies in two wards (three joined rows for two
areas), yet its displayed rank and the area total match the two-row
per-area table: rank 2 of 2. -/
theorem display_stats_join_invariant_witness :
    (([Feature.mk [0] ("A", 3), Feature.mk [1] ("B", 7)].map
        (fun l => l.attrs.1)).Nodup) ∧
    (joined_rows [Feature.mk [0] ("A", 3), Feature.mk [1] ("B", 7)]
        [Feature.mk [0] "W1", Feature.mk [0, 1] "W2"]).length = 3 ∧
    display_stats (joined_rows [Feature.mk [0] ("A", 3), Feature.mk [1] ("B", 7)]
        [Feature.mk [0] "W1", Feature.mk [0, 1] "W2"]) "A" =
      display_stats
        ([Feature.mk [0] ("A", 3), Feature.mk [1] ("B", 7)].map (fun l => l.attrs)) "A" ∧
    display_stats
        ([Feature.mk [0] ("A", 3), Feature.mk [1] ("B", 7)].map (fun l => l.attrs)) "A" =
      some (2, 2) :=
  ⟨by decide, by decide,
   (display_stats_join_invariant [Feature.mk [0] ("A", 3), Feature.mk [1] ("B", 7)]
      [Feature.mk [0] "W1", Feature.mk [0, 1] "W2"] "A" (by decide)).2,
   by decide⟩
